import Mathlib

set_option autoImplicit false

namespace Serialbox

/-- Element type tag of a field, mirroring the type tags of the boundary array descriptor. -/
inductive TypeID where
  | Boolean
  | Int32
  | Int64
  | Float32
  | Float64
  deriving DecidableEq, Repr

/-- Size in bytes of one element of the given type. -/
def TypeID.bytesPerElement : TypeID → Nat
  | .Boolean => 1
  | .Int32 => 4
  | .Int64 => 8
  | .Float32 => 4
  | .Float64 => 8

/-- Metadata of a field: unique name, element type tag, ordered dimension extents. -/
structure FieldMetadata where
  name : String
  type : TypeID
  dims : List Nat
  deriving DecidableEq, Repr

/-- Savepoint identity: a name together with an ordered sequence of key/value pairs;
the full tuple is the identity, not the name alone. -/
structure Savepoint where
  name : String
  attributes : List (String × String)
  deriving DecidableEq, Repr

/-- Error taxonomy of the core. -/
inductive CoreError where
  | UnknownFormat
  | DuplicateFormat
  | IOError
  | LockConflict
  | FormatMismatch
  | WriteError
  | CorruptData
  | LocationNotFound
  | ArchiveClosed
  | FieldShapeConflict
  | DuplicateEntry
  | NotFound
  | CorruptMetadata
  deriving DecidableEq, Repr

/-- Field identifiers are catalogue-assigned: indices into the catalogue's field table. -/
abbrev FieldID := Nat

/-- Savepoint identifiers are catalogue-assigned: indices into the savepoint table. -/
abbrev SavepointID := Nat

/-- Storage locations are opaque tokens handed out by the archive. -/
abbrev StorageLocation := Nat

/-- Open mode of an archive session. -/
inductive OpenMode where
  | Read
  | Write
  | Append
  deriving DecidableEq, Repr

/-- Modelled from the spec: the metadata catalogue (its C++ implementation is absent from
the sources; only a frontend stub and the C declaration of the registry listing are
present). It owns the field table, the ordered savepoint list, and the per
(savepoint, field) storage locations. -/
structure Catalogue where
  fields : List FieldMetadata
  savepoints : List Savepoint
  locations : List (SavepointID × FieldID × StorageLocation)
  deriving DecidableEq, Repr

/-- Index of the first field with the given name, if any. -/
def findFieldIdxAux : List FieldMetadata → String → Option Nat
  | [], _ => none
  | f :: fs, n => if f.name = n then some 0 else (findFieldIdxAux fs n).map (· + 1)

/-- Modelled from the spec: registerField over the field table — idempotent for an
identical re-registration of an existing name, FieldShapeConflict if type or dims
differ from the prior registration, appends a fresh entry for an unseen name. -/
def registerFieldAux : List FieldMetadata → String → TypeID → List Nat →
    Except CoreError (FieldID × List FieldMetadata)
  | [], n, ty, ds => .ok (0, [⟨n, ty, ds⟩])
  | f :: fs, n, ty, ds =>
    if f.name = n then
      if f.type = ty ∧ f.dims = ds then .ok (0, f :: fs)
      else .error .FieldShapeConflict
    else
      match registerFieldAux fs n ty ds with
      | .ok (i, fs') => .ok (i + 1, f :: fs')
      | .error e => .error e

/-- Index of the first savepoint equal (name and attributes) to the given one, if any. -/
def findSavepointIdxAux : List Savepoint → Savepoint → Option Nat
  | [], _ => none
  | s :: ss, sp => if s = sp then some 0 else (findSavepointIdxAux ss sp).map (· + 1)

/-- Modelled from the spec: registerSavepoint over the savepoint list — idempotent for
an exact match of name plus attributes, appends a distinct entry (ordered by first
insertion) otherwise; never fails. -/
def registerSavepointAux : List Savepoint → Savepoint → Nat × List Savepoint
  | [], sp => (0, [sp])
  | s :: ss, sp =>
    if s = sp then (0, s :: ss)
    else
      let r := registerSavepointAux ss sp
      (r.1 + 1, s :: r.2)

/-- Location recorded for the first entry matching the (savepoint, field) pair, if any. -/
def lookupLocationAux : List (SavepointID × FieldID × StorageLocation) →
    SavepointID → FieldID → Option StorageLocation
  | [], _, _ => none
  | e :: es, sid, fid =>
    if e.1 = sid ∧ e.2.1 = fid then some e.2.2 else lookupLocationAux es sid fid

/-- Modelled from the spec: registerField on a catalogue. -/
def Catalogue.registerField (c : Catalogue) (n : String) (ty : TypeID) (ds : List Nat) :
    Except CoreError (FieldID × Catalogue) :=
  match registerFieldAux c.fields n ty ds with
  | .ok (i, fs') => .ok (i, ⟨fs', c.savepoints, c.locations⟩)
  | .error e => .error e

/-- Modelled from the spec: registerSavepoint on a catalogue. -/
def Catalogue.registerSavepoint (c : Catalogue) (sp : Savepoint) : SavepointID × Catalogue :=
  let r := registerSavepointAux c.savepoints sp
  (r.1, ⟨c.fields, r.2, c.locations⟩)

/-- Modelled from the spec: recordLocation — fails with DuplicateEntry if a location
already exists for the (savepoint, field) pair, never overwrites. -/
def Catalogue.recordLocation (c : Catalogue) (sid : SavepointID) (fid : FieldID)
    (loc : StorageLocation) : Except CoreError Catalogue :=
  match lookupLocationAux c.locations sid fid with
  | some _ => .error .DuplicateEntry
  | none => .ok ⟨c.fields, c.savepoints, c.locations ++ [(sid, fid, loc)]⟩

/-- Modelled from the spec: lookupLocation — NotFound if the pair has no recorded entry. -/
def Catalogue.lookupLocation (c : Catalogue) (sid : SavepointID) (fid : FieldID) :
    Except CoreError StorageLocation :=
  match lookupLocationAux c.locations sid fid with
  | some loc => .ok loc
  | none => .error .NotFound

/-- Version tag of the persisted metadata representation. -/
def catalogueFormatVersion : Nat := 2

/-- Persisted representation of a whole catalogue: a versioned document holding the
field table, the savepoint list, and the field-to-location tables. -/
structure PersistedCatalogue where
  version : Nat
  fields : List FieldMetadata
  savepoints : List Savepoint
  locations : List (SavepointID × FieldID × StorageLocation)
  deriving DecidableEq, Repr

/-- Modelled from the spec: serialize — produce the persisted representation. -/
def Catalogue.serialize (c : Catalogue) : PersistedCatalogue :=
  ⟨catalogueFormatVersion, c.fields, c.savepoints, c.locations⟩

/-- Referential integrity of the location tables: every entry points at a registered
savepoint and a registered field. -/
def locationsValid (nf ns : Nat) : List (SavepointID × FieldID × StorageLocation) → Bool
  | [] => true
  | e :: es => decide (e.1 < ns) && decide (e.2.1 < nf) && locationsValid nf ns es

/-- Field-table consistency: no two entries share a name with a conflicting shape. -/
def fieldsConsistent : List FieldMetadata → Bool
  | [] => true
  | f :: fs =>
    fs.all (fun g => !(g.name == f.name) || (decide (g.type = f.type) && g.dims == f.dims))
      && fieldsConsistent fs

/-- Modelled from the spec: deserialize — FormatMismatch on a wrong version tag,
CorruptMetadata on a structural violation (unknown field reference inside a savepoint
entry, duplicate field names with conflicting shapes), otherwise the catalogue. -/
def deserialize (p : PersistedCatalogue) : Except CoreError Catalogue :=
  if p.version ≠ catalogueFormatVersion then .error .FormatMismatch
  else if locationsValid p.fields.length p.savepoints.length p.locations
            && fieldsConsistent p.fields then
    .ok ⟨p.fields, p.savepoints, p.locations⟩
  else .error .CorruptMetadata

/-- Modelled from the spec: an archive instance. Its committed entries are the stored
byte records; a StorageLocation indexes into them. -/
structure Archive where
  store : List (List Nat)
  deriving DecidableEq, Repr

/-- Modelled from the spec: Archive write — fail-atomic; ioFail injects an I/O failure
of the underlying medium. On success the bytes are durably stored and the returned
location is valid; on failure no location is returned and the archive is unchanged. -/
def Archive.write (a : Archive) (bytes : List Nat) (ioFail : Bool) :
    Except CoreError StorageLocation × Archive :=
  if ioFail then (.error .IOError, a)
  else (.ok a.store.length, ⟨a.store ++ [bytes]⟩)

/-- Modelled from the spec: Archive read — materializes the bytes at the location,
LocationNotFound if the location is invalid, CorruptData if the stored byte length
disagrees with the expected shape/type. -/
def Archive.read (a : Archive) (loc : StorageLocation) (expectedLen : Nat) :
    Except CoreError (List Nat) :=
  match a.store[loc]? with
  | none => .error .LocationNotFound
  | some bytes => if bytes.length = expectedLen then .ok bytes else .error .CorruptData

/-- Modelled from the spec: the archive factory registry — a mapping from format names
to constructors, in registration order. Constructors are modelled as opaque tokens. -/
structure Registry where
  formats : List (String × Nat)
  deriving DecidableEq, Repr

/-- Constructor registered under the first exact match of the name, if any. -/
def lookupFormatAux : List (String × Nat) → String → Option Nat
  | [], _ => none
  | p :: ps, n => if p.1 = n then some p.2 else lookupFormatAux ps n

/-- Modelled from the spec: Registry register — DuplicateFormat if the name is already
registered with a different constructor, a no-op if re-registered identically. -/
def Registry.register (r : Registry) (n : String) (ctor : Nat) : Except CoreError Registry :=
  match lookupFormatAux r.formats n with
  | some c => if c = ctor then .ok r else .error .DuplicateFormat
  | none => .ok ⟨r.formats ++ [(n, ctor)]⟩

/-- Modelled from the spec: Registry create — looks up the constructor by exact,
case-sensitive name match; UnknownFormat if absent. -/
def Registry.create (r : Registry) (n : String) : Except CoreError Nat :=
  match lookupFormatAux r.formats n with
  | some c => .ok c
  | none => .error .UnknownFormat

/-- Modelled from the spec: listRegisteredFormats — all known format names, in
registration order. -/
def Registry.listRegisteredFormats (r : Registry) : List String :=
  r.formats.map Prod.fst

/-- Modelled from the spec: the serializer façade combining a catalogue with one
archive instance and the session's open mode. -/
structure Serializer where
  mode : OpenMode
  cat : Catalogue
  archive : Archive
  deriving DecidableEq, Repr

/-- Modelled from the spec: Serializer write — validates the array payload against the
field's registered metadata (auto-registering on first use), persists the bytes in the
archive, then records the resulting location in the catalogue. -/
def Serializer.write (s : Serializer) (n : String) (ty : TypeID) (ds : List Nat)
    (sp : Savepoint) (bytes : List Nat) (ioFail : Bool) : Except CoreError Serializer :=
  if bytes.length = ds.prod * ty.bytesPerElement then
    match registerFieldAux s.cat.fields n ty ds with
    | .error e => .error e
    | .ok (fid, fs') =>
      let rs := registerSavepointAux s.cat.savepoints sp
      match s.archive.write bytes ioFail with
      | (.error e, _) => .error e
      | (.ok loc, ar') =>
        match Catalogue.recordLocation ⟨fs', rs.2, s.cat.locations⟩ rs.1 fid loc with
        | .error e => .error e
        | .ok cat' => .ok ⟨s.mode, cat', ar'⟩
  else .error .WriteError

/-- Modelled from the spec: Serializer read — resolves via the catalogue then the
archive; NotFound variants when the field, savepoint or pair has no entry. -/
def Serializer.read (s : Serializer) (n : String) (sp : Savepoint) :
    Except CoreError (List Nat) :=
  match findFieldIdxAux s.cat.fields n with
  | none => .error .NotFound
  | some fid =>
    match s.cat.fields[fid]? with
    | none => .error .CorruptMetadata
    | some fm =>
      match findSavepointIdxAux s.cat.savepoints sp with
      | none => .error .NotFound
      | some sid =>
        match lookupLocationAux s.cat.locations sid fid with
        | none => .error .NotFound
        | some loc => s.archive.read loc (fm.dims.prod * fm.type.bytesPerElement)

/-- Descriptor of the string array returned across the C boundary: one owning array
block and one owning buffer block per string. Blocks are modelled as heap block ids. -/
structure StringArrayDescriptor where
  arrayBlock : Nat
  elementBlocks : List Nat
  deriving DecidableEq, Repr

/-- Heap of the boundary-allocation model: the list of live block ids and the next
fresh id. -/
structure Heap where
  live : List Nat
  next : Nat
  deriving DecidableEq, Repr

/-- Every live block id of a heap is below the next fresh id. -/
def Heap.WF (h : Heap) : Prop := ∀ b ∈ h.live, b < h.next

/-- Modelled from the spec: serialboxArchiveGetRegisteredArchives (its definition is
absent from the sources; only its declaration in serialbox-c/Archive.h is present) —
allocates, entirely inside the core, one array block and one string buffer block per
registered archive name, and hands the owning descriptor to the caller. -/
def getRegisteredArchives (r : Registry) (h : Heap) : StringArrayDescriptor × Heap :=
  let names := r.listRegisteredFormats
  let elems := (List.range names.length).map (fun i => h.next + 1 + i)
  (⟨h.next, elems⟩, ⟨h.live ++ h.next :: elems, h.next + 1 + names.length⟩)

/-- Release of a single block: fails (undefined behaviour in the C model) if the block
is not live. -/
def freeBlock (h : Heap) (b : Nat) : Option Heap :=
  if b ∈ h.live then some ⟨h.live.erase b, h.next⟩ else none

/-- Release of a list of blocks, each exactly once, left to right. -/
def freeMany : Heap → List Nat → Option Heap
  | h, [] => some h
  | h, b :: bs =>
    match freeBlock h b with
    | some h' => freeMany h' bs
    | none => none

/-- Modelled from the spec: the single matching free call for a boundary string array —
releases the array block and every element buffer, each exactly once. -/
def freeStringArray (h : Heap) (d : StringArrayDescriptor) : Option Heap :=
  freeMany h (d.arrayBlock :: d.elementBlocks)

/-- Registration of a field yields the index of its (first) entry in the resulting
table, and that entry carries exactly the registered name, type and dims. -/
theorem registerFieldAux_ok (fs fs' : List FieldMetadata) (n : String) (ty : TypeID)
    (ds : List Nat) (i : Nat) (h : registerFieldAux fs n ty ds = .ok (i, fs')) :
    findFieldIdxAux fs' n = some i ∧ fs'[i]? = some ⟨n, ty, ds⟩ := by
  induction fs generalizing i fs' with
  | nil =>
    simp only [registerFieldAux, Except.ok.injEq, Prod.mk.injEq] at h
    obtain ⟨hi, hfs⟩ := h
    subst hi; subst hfs
    simp [findFieldIdxAux]
  | cons f fs ih =>
    simp only [registerFieldAux] at h
    by_cases hn : f.name = n
    · rw [if_pos hn] at h
      by_cases hc : f.type = ty ∧ f.dims = ds
      · rw [if_pos hc] at h
        simp only [Except.ok.injEq, Prod.mk.injEq] at h
        obtain ⟨hi, hfs⟩ := h
        subst hi; subst hfs
        obtain ⟨hty, hds⟩ := hc
        cases f
        simp_all [findFieldIdxAux]
      · rw [if_neg hc] at h
        simp at h
    · rw [if_neg hn] at h
      cases hrec : registerFieldAux fs n ty ds with
      | error e => rw [hrec] at h; simp at h
      | ok p =>
        obtain ⟨j, fsr⟩ := p
        rw [hrec] at h
        simp only [Except.ok.injEq, Prod.mk.injEq] at h
        obtain ⟨hi, hfs⟩ := h
        subst hi; subst hfs
        obtain ⟨hfind, hget⟩ := ih fsr j hrec
        simp [findFieldIdxAux, hn, hfind, hget]

/-- Registering a savepoint yields an identifier that resolves to that savepoint. -/
theorem registerSavepointAux_get (ss : List Savepoint) (sp : Savepoint) :
    (registerSavepointAux ss sp).2[(registerSavepointAux ss sp).1]? = some sp := by
  induction ss with
  | nil => simp [registerSavepointAux]
  | cons s ss ih =>
    by_cases h : s = sp
    · simp [registerSavepointAux, h]
    · simp [registerSavepointAux, h, ih]

/-- Looking up the registered savepoint finds exactly the returned identifier. -/
theorem registerSavepointAux_find (ss : List Savepoint) (sp : Savepoint) :
    findSavepointIdxAux (registerSavepointAux ss sp).2 sp
      = some (registerSavepointAux ss sp).1 := by
  induction ss with
  | nil => simp [registerSavepointAux, findSavepointIdxAux]
  | cons s ss ih =>
    by_cases h : s = sp
    · simp [registerSavepointAux, findSavepointIdxAux, h]
    · simp [registerSavepointAux, findSavepointIdxAux, h, ih]

/-- Registration leaves the table unchanged on an exact match and appends otherwise. -/
theorem registerSavepointAux_snd (ss : List Savepoint) (sp : Savepoint) :
    (registerSavepointAux ss sp).2 = if sp ∈ ss then ss else ss ++ [sp] := by
  induction ss with
  | nil => simp [registerSavepointAux]
  | cons s ss ih =>
    by_cases h : s = sp
    · simp [registerSavepointAux, h]
    · have hne : ¬ sp = s := fun hh => h hh.symm
      by_cases hm : sp ∈ ss <;>
        simp [registerSavepointAux, h, ih, hm, List.mem_cons, hne]

/-- Registering an unseen savepoint appends it at the end of the ordered list. -/
theorem registerSavepointAux_fresh (ss : List Savepoint) (sp : Savepoint) (h : sp ∉ ss) :
    registerSavepointAux ss sp = (ss.length, ss ++ [sp]) := by
  induction ss with
  | nil => simp [registerSavepointAux]
  | cons s ss ih =>
    simp only [List.mem_cons, not_or] at h
    obtain ⟨h1, h2⟩ := h
    have hne : ¬ s = sp := fun hh => h1 hh.symm
    simp [registerSavepointAux, hne, ih h2]

/-- Registering the same savepoint a second time is a no-op with the same identifier. -/
theorem registerSavepointAux_idem (ss : List Savepoint) (sp : Savepoint) :
    registerSavepointAux (registerSavepointAux ss sp).2 sp = registerSavepointAux ss sp := by
  induction ss with
  | nil => simp [registerSavepointAux]
  | cons s ss ih =>
    by_cases h : s = sp
    · simp [registerSavepointAux, h]
    · simp [registerSavepointAux, h, ih]

/-- Membership of a (savepoint, field) entry makes the location lookup succeed. -/
theorem lookupLocationAux_mem (l : List (SavepointID × FieldID × StorageLocation))
    (sid : SavepointID) (fid : FieldID) (l0 : StorageLocation) (h : (sid, fid, l0) ∈ l) :
    ∃ v, lookupLocationAux l sid fid = some v := by
  induction l with
  | nil => simp at h
  | cons e es ih =>
    by_cases he : e.1 = sid ∧ e.2.1 = fid
    · exact ⟨e.2.2, by simp [lookupLocationAux, he]⟩
    · rcases List.mem_cons.mp h with h1 | h2
      · exact absurd ⟨by rw [← h1], by rw [← h1]⟩ he
      · simpa [lookupLocationAux, he] using ih h2

/-- Appending a fresh (savepoint, field) entry makes it the lookup result. -/
theorem lookupLocationAux_append_none (l : List (SavepointID × FieldID × StorageLocation))
    (sid : SavepointID) (fid : FieldID) (loc : StorageLocation)
    (h : lookupLocationAux l sid fid = none) :
    lookupLocationAux (l ++ [(sid, fid, loc)]) sid fid = some loc := by
  induction l with
  | nil => simp [lookupLocationAux]
  | cons e es ih =>
    by_cases he : e.1 = sid ∧ e.2.1 = fid
    · simp [lookupLocationAux, he] at h
    · simp only [List.cons_append, lookupLocationAux, if_neg he] at h ⊢
      exact ih h

/-- Absence of a name from the format table makes the lookup fail. -/
theorem lookupFormatAux_eq_none (ps : List (String × Nat)) (n : String)
    (h : ∀ p ∈ ps, p.1 ≠ n) : lookupFormatAux ps n = none := by
  induction ps with
  | nil => rfl
  | cons p ps ih =>
    have hp : p.1 ≠ n := h p (List.mem_cons_self p ps)
    simp only [lookupFormatAux, if_neg hp]
    exact ih (fun q hq => h q (List.mem_cons_of_mem p hq))

/-- Recording a location for a pair with no prior entry appends the entry. -/
theorem recordLocation_eq_of_lookup_none (c : Catalogue) (sid : SavepointID)
    (fid : FieldID) (loc : StorageLocation)
    (h : lookupLocationAux c.locations sid fid = none) :
    c.recordLocation sid fid loc
      = .ok ⟨c.fields, c.savepoints, c.locations ++ [(sid, fid, loc)]⟩ := by
  unfold Catalogue.recordLocation
  rw [h]

/-- Recording a location for a pair with a prior entry fails with DuplicateEntry. -/
theorem recordLocation_eq_of_lookup_some (c : Catalogue) (sid : SavepointID)
    (fid : FieldID) (loc v : StorageLocation)
    (h : lookupLocationAux c.locations sid fid = some v) :
    c.recordLocation sid fid loc = .error .DuplicateEntry := by
  unfold Catalogue.recordLocation
  rw [h]

/-- Location entries that reference an unregistered field fail the validity scan. -/
theorem locationsValid_eq_false (nf ns : Nat)
    (l : List (SavepointID × FieldID × StorageLocation))
    (e : SavepointID × FieldID × StorageLocation) (he : e ∈ l) (hbad : ¬ e.2.1 < nf) :
    locationsValid nf ns l = false := by
  induction l with
  | nil => simp at he
  | cons x xs ih =>
    rcases List.mem_cons.mp he with h1 | h2
    · subst h1
      simp [locationsValid, hbad]
    · simp [locationsValid, ih h2]

/-- Two entries sharing a name with a conflicting shape fail the consistency scan. -/
theorem fieldsConsistent_eq_false (fs : List FieldMetadata) (i j : Nat)
    (f g : FieldMetadata) (hij : i < j) (hf : fs[i]? = some f) (hg : fs[j]? = some g)
    (hname : f.name = g.name) (hconf : ¬(g.type = f.type ∧ g.dims = f.dims)) :
    fieldsConsistent fs = false := by
  induction fs generalizing i j with
  | nil => simp at hf
  | cons x xs ih =>
    cases i with
    | zero =>
      simp only [List.getElem?_cons_zero, Option.some.injEq] at hf
      subst hf
      cases j with
      | zero => omega
      | succ j2 =>
        rw [List.getElem?_cons_succ] at hg
        have hgmem : g ∈ xs := List.getElem?_mem hg
        have h2 : (decide (g.type = x.type) && (g.dims == x.dims)) = false := by
          by_cases ht : g.type = x.type
          · by_cases hd : g.dims = x.dims
            · exact absurd ⟨ht, hd⟩ hconf
            · simp [hd]
          · simp [ht]
        have hall : xs.all (fun gg => !(gg.name == x.name) ||
            (decide (gg.type = x.type) && (gg.dims == x.dims))) = false := by
          rw [List.all_eq_false]
          refine ⟨g, hgmem, ?_⟩
          simp [hname.symm, h2]
        simp [fieldsConsistent, hall]
    | succ i2 =>
      cases j with
      | zero => omega
      | succ j2 =>
        rw [List.getElem?_cons_succ] at hf hg
        have hfalse := ih i2 j2 (Nat.lt_of_succ_lt_succ hij) hf hg
        simp [fieldsConsistent, hfalse]

/-- Releasing a live block shrinks the live set by that block. -/
theorem freeBlock_mem (h : Heap) (b : Nat) (hb : b ∈ h.live) :
    freeBlock h b = some ⟨h.live.erase b, h.next⟩ := by
  unfold freeBlock
  rw [if_pos hb]

/-- Releasing a block that is not live is invalid. -/
theorem freeBlock_not_mem (h : Heap) (b : Nat) (hb : b ∉ h.live) :
    freeBlock h b = none := by
  unfold freeBlock
  rw [if_neg hb]

/-- Releasing a suffix of freshly allocated blocks restores the prior live set. -/
theorem freeMany_append (bs L : List Nat) (nx : Nat) (h : ∀ b ∈ bs, b ∉ L) :
    freeMany ⟨L ++ bs, nx⟩ bs = some ⟨L, nx⟩ := by
  induction bs generalizing L with
  | nil => simp [freeMany]
  | cons b bs ih =>
    have hb : b ∉ L := h b (List.mem_cons_self b bs)
    unfold freeMany
    rw [freeBlock_mem ⟨L ++ b :: bs, nx⟩ b
      (List.mem_append_right L (List.mem_cons_self b bs))]
    dsimp only
    rw [List.erase_append_right _ hb, List.erase_cons_head]
    exact ih L (fun x hx => h x (List.mem_cons_of_mem b hx))

/-- C1: for every valid field name, shape, element type and byte payload, a Serializer
write of that data at a (field, savepoint) pair followed by a read of the same
(field, savepoint) pair returns bytes identical to the bytes that were written. -/
theorem serializer_write_then_read (s s' : Serializer) (n : String) (ty : TypeID)
    (ds : List Nat) (sp : Savepoint) (bytes : List Nat) (ioFail : Bool)
    (h : s.write n ty ds sp bytes ioFail = .ok s') :
    s'.read n sp = .ok bytes := by
  unfold Serializer.write at h
  by_cases hlen : bytes.length = ds.prod * ty.bytesPerElement
  · rw [if_pos hlen] at h
    cases hreg : registerFieldAux s.cat.fields n ty ds with
    | error e => rw [hreg] at h; simp at h
    | ok p =>
      obtain ⟨fid, fs'⟩ := p
      rw [hreg] at h
      dsimp only at h
      cases ioFail with
      | true =>
        rw [show s.archive.write bytes true = (.error .IOError, s.archive) from rfl] at h
        simp at h
      | false =>
        rw [show s.archive.write bytes false
            = (.ok s.archive.store.length, ⟨s.archive.store ++ [bytes]⟩) from rfl] at h
        dsimp only at h
        cases hlook : lookupLocationAux s.cat.locations
            (registerSavepointAux s.cat.savepoints sp).1 fid with
        | some v =>
          rw [recordLocation_eq_of_lookup_some
            ⟨fs', (registerSavepointAux s.cat.savepoints sp).2, s.cat.locations⟩
            (registerSavepointAux s.cat.savepoints sp).1 fid s.archive.store.length v
            hlook] at h
          simp at h
        | none =>
          rw [recordLocation_eq_of_lookup_none
            ⟨fs', (registerSavepointAux s.cat.savepoints sp).2, s.cat.locations⟩
            (registerSavepointAux s.cat.savepoints sp).1 fid s.archive.store.length
            hlook] at h
          dsimp only at h
          simp only [Except.ok.injEq] at h
          subst h
          obtain ⟨hfind, hget⟩ := registerFieldAux_ok s.cat.fields fs' n ty ds fid hreg
          have hspf := registerSavepointAux_find s.cat.savepoints sp
          have hloc := lookupLocationAux_append_none s.cat.locations
            (registerSavepointAux s.cat.savepoints sp).1 fid s.archive.store.length hlook
          simp [Serializer.read, hfind, hget, hspf, hloc, Archive.read,
            List.getElem?_concat_length, hlen]
  · rw [if_neg hlen] at h
    simp at h

/-- Witness for C1 at the spec's scenario: writing field "temperature" of shape [2,2]
and type float64 at savepoint (step 0) into a fresh serializer, then reading the same
pair, returns exactly the written bytes. -/
theorem serializer_write_then_read_witness :
    Serializer.read
      ⟨.Write, ⟨[⟨"temperature", .Float64, [2, 2]⟩], [⟨"sp", [("step", "0")]⟩],
        [(0, 0, 0)]⟩, ⟨[List.replicate 32 1]⟩⟩ "temperature" ⟨"sp", [("step", "0")]⟩
      = .ok (List.replicate 32 1) :=
  serializer_write_then_read ⟨.Write, ⟨[], [], []⟩, ⟨[]⟩⟩
    ⟨.Write, ⟨[⟨"temperature", .Float64, [2, 2]⟩], [⟨"sp", [("step", "0")]⟩],
      [(0, 0, 0)]⟩, ⟨[List.replicate 32 1]⟩⟩ "temperature" .Float64 [2, 2]
    ⟨"sp", [("step", "0")]⟩ (List.replicate 32 1) false rfl

/-- C2: every Archive write either durably stores the bytes and returns a valid
StorageLocation (the location resolves to exactly the written bytes), or fails with
IOError returning no location, in which case every already-committed entry is
unchanged and no read resolves any partial write of the failing entry (all reads are
exactly as before the call). -/
theorem archive_write_fail_atomic (a : Archive) (bytes : List Nat) (ioFail : Bool) :
    (∃ loc, (a.write bytes ioFail).1 = .ok loc ∧
      (a.write bytes ioFail).2.store[loc]? = some bytes) ∨
    ((a.write bytes ioFail).1 = .error .IOError ∧
      (∀ j, j < a.store.length → (a.write bytes ioFail).2.store[j]? = a.store[j]?) ∧
      ∀ loc expectedLen, (a.write bytes ioFail).2.read loc expectedLen
        = a.read loc expectedLen) := by
  cases ioFail with
  | true => exact Or.inr ⟨rfl, fun j _ => rfl, fun loc el => rfl⟩
  | false =>
    refine Or.inl ⟨a.store.length, rfl, ?_⟩
    show (a.store ++ [bytes])[a.store.length]? = some bytes
    exact List.getElem?_concat_length a.store bytes

/-- C5: deserialize fails with CorruptMetadata whenever the persisted representation
violates referential integrity — a location entry referencing a FieldID that was never
registered, or duplicate field names with conflicting shapes — rather than silently
dropping the offending entry. -/
theorem deserialize_corrupt (p : PersistedCatalogue)
    (hv : p.version = catalogueFormatVersion)
    (hbad :
      (∃ e ∈ p.locations, ¬ e.2.1 < p.fields.length) ∨
      (∃ (i j : Nat) (f g : FieldMetadata), i < j ∧ p.fields[i]? = some f ∧ p.fields[j]? = some g ∧
        f.name = g.name ∧ ¬(g.type = f.type ∧ g.dims = f.dims))) :
    deserialize p = .error .CorruptMetadata := by
  unfold deserialize
  rw [if_neg (by simp [hv])]
  rcases hbad with ⟨e, he, hb⟩ | ⟨i, j, f, g, hij, hf, hg, hname, hconf⟩
  · simp [locationsValid_eq_false p.fields.length p.savepoints.length p.locations e he hb]
  · simp [fieldsConsistent_eq_false p.fields i j f g hij hf hg hname hconf]

/-- Witness for C5: a persisted catalogue with one registered field whose location
table references FieldID 5 — never registered — is rejected with CorruptMetadata. -/
theorem deserialize_corrupt_witness :
    deserialize ⟨2, [⟨"t", .Float64, [1]⟩], [⟨"s", []⟩], [(0, 5, 0)]⟩
      = .error .CorruptMetadata :=
  deserialize_corrupt ⟨2, [⟨"t", .Float64, [1]⟩], [⟨"s", []⟩], [(0, 5, 0)]⟩ rfl
    (Or.inl ⟨(0, 5, 0), by decide, by decide⟩)

/-- C10: the string array returned across the C boundary by the registered-archives
listing is an owning structure allocated entirely by the core — the array block and
one buffer block per name are fresh and live after the call — and the caller releases
the entire structure, array and every element, via a single matching free call that
restores the prior live set; repeating that free call is invalid (no block is ever
released twice). -/
theorem getRegisteredArchives_ownership (r : Registry) (h : Heap) (hwf : h.WF) :
    ((getRegisteredArchives r h).1.arrayBlock ∉ h.live ∧
      (∀ b ∈ (getRegisteredArchives r h).1.elementBlocks, b ∉ h.live)) ∧
    (getRegisteredArchives r h).1.elementBlocks.length
      = r.listRegisteredFormats.length ∧
    ((getRegisteredArchives r h).1.arrayBlock ∈ (getRegisteredArchives r h).2.live ∧
      (∀ b ∈ (getRegisteredArchives r h).1.elementBlocks,
        b ∈ (getRegisteredArchives r h).2.live)) ∧
    freeStringArray (getRegisteredArchives r h).2 (getRegisteredArchives r h).1
      = some ⟨h.live, h.next + 1 + r.listRegisteredFormats.length⟩ ∧
    freeStringArray ⟨h.live, h.next + 1 + r.listRegisteredFormats.length⟩
      (getRegisteredArchives r h).1 = none := by
  have hnotmem : ∀ b : Nat, h.next ≤ b → b ∉ h.live := by
    intro b hle hmem
    exact absurd (hwf b hmem) (Nat.not_lt.mpr hle)
  have harr : h.next ∉ h.live := hnotmem h.next (Nat.le_refl _)
  have helems : ∀ b ∈ (List.range r.listRegisteredFormats.length).map
      (fun i => h.next + 1 + i), b ∉ h.live := by
    intro b hb
    simp only [List.mem_map, List.mem_range] at hb
    obtain ⟨i, _, hi⟩ := hb
    exact hnotmem b (by omega)
  have hfresh : ∀ b ∈ h.next :: (List.range r.listRegisteredFormats.length).map
      (fun i => h.next + 1 + i), b ∉ h.live := by
    intro b hb
    rcases List.mem_cons.mp hb with h1 | h2
    · subst h1; exact harr
    · exact helems b h2
  simp only [getRegisteredArchives]
  refine ⟨⟨harr, helems⟩, by simp, ⟨?_, ?_⟩, ?_, ?_⟩
  · exact List.mem_append_right _ (List.mem_cons_self _ _)
  · intro b hb
    exact List.mem_append_right _ (List.mem_cons_of_mem _ hb)
  · exact freeMany_append
      (h.next :: (List.range r.listRegisteredFormats.length).map (fun i => h.next + 1 + i))
      h.live (h.next + 1 + r.listRegisteredFormats.length) hfresh
  · unfold freeStringArray freeMany
    dsimp only
    rw [freeBlock_not_mem ⟨h.live, h.next + 1 + r.listRegisteredFormats.length⟩
      h.next harr]

/-- Witness for C10 on an empty heap and a registry holding one format: the descriptor
owns two fresh blocks, one free call releases both restoring the empty live set, and a
second identical free call is invalid. -/
theorem getRegisteredArchives_ownership_witness :
    ((getRegisteredArchives ⟨[("binary", 0)]⟩ ⟨[], 0⟩).1.arrayBlock ∉ ([] : List Nat) ∧
      (∀ b ∈ (getRegisteredArchives ⟨[("binary", 0)]⟩ ⟨[], 0⟩).1.elementBlocks,
        b ∉ ([] : List Nat))) ∧
    (getRegisteredArchives ⟨[("binary", 0)]⟩ ⟨[], 0⟩).1.elementBlocks.length = 1 ∧
    ((getRegisteredArchives ⟨[("binary", 0)]⟩ ⟨[], 0⟩).1.arrayBlock
        ∈ (getRegisteredArchives ⟨[("binary", 0)]⟩ ⟨[], 0⟩).2.live ∧
      (∀ b ∈ (getRegisteredArchives ⟨[("binary", 0)]⟩ ⟨[], 0⟩).1.elementBlocks,
        b ∈ (getRegisteredArchives ⟨[("binary", 0)]⟩ ⟨[], 0⟩).2.live)) ∧
    freeStringArray (getRegisteredArchives ⟨[("binary", 0)]⟩ ⟨[], 0⟩).2
        (getRegisteredArchives ⟨[("binary", 0)]⟩ ⟨[], 0⟩).1 = some ⟨[], 2⟩ ∧
    freeStringArray ⟨[], 2⟩ (getRegisteredArchives ⟨[("binary", 0)]⟩ ⟨[], 0⟩).1 = none :=
  getRegisteredArchives_ownership ⟨[("binary", 0)]⟩ ⟨[], 0⟩
    (fun b hb => absurd hb (List.not_mem_nil b))

/-- C3: for every (SavepointID, FieldID) pair that already has a recorded
StorageLocation in the catalogue, any further recordLocation call for that pair fails
with DuplicateEntry — regardless of whether the newly recorded location (hence the new
bytes) is identical to the stored one — so no existing entry is overwritten or
removed. -/
theorem recordLocation_duplicate (c : Catalogue) (sid : SavepointID) (fid : FieldID)
    (l0 : StorageLocation) (h : (sid, fid, l0) ∈ c.locations) :
    ∀ loc : StorageLocation, c.recordLocation sid fid loc = .error .DuplicateEntry := by
  intro loc
  unfold Catalogue.recordLocation
  obtain ⟨v, hv⟩ := lookupLocationAux_mem c.locations sid fid l0 h
  rw [hv]

/-- Witness for C3 at a concrete catalogue: re-recording the very same location for an
already recorded pair fails with DuplicateEntry. -/
theorem recordLocation_duplicate_witness :
    Catalogue.recordLocation ⟨[⟨"t", .Float64, [2]⟩], [⟨"s", []⟩], [(0, 0, 5)]⟩ 0 0 5
      = .error .DuplicateEntry :=
  recordLocation_duplicate ⟨[⟨"t", .Float64, [2]⟩], [⟨"s", []⟩], [(0, 0, 5)]⟩ 0 0 5
    (by decide) 5

/-- C4: for every field name already registered in the catalogue, registering again
with identical type and dimensions succeeds, returns the existing identifier and
leaves the table unchanged (no duplicate entry); registering with a different type or
dimensions fails with FieldShapeConflict and returns no modified table, so the
original registration is unchanged. -/
theorem registerField_idempotent_or_conflict (fs : List FieldMetadata) (n : String)
    (ty : TypeID) (ds : List Nat) (i : Nat) (f : FieldMetadata)
    (hfind : findFieldIdxAux fs n = some i) (hget : fs[i]? = some f) :
    (f.type = ty ∧ f.dims = ds → registerFieldAux fs n ty ds = .ok (i, fs)) ∧
    (¬(f.type = ty ∧ f.dims = ds) →
      registerFieldAux fs n ty ds = .error .FieldShapeConflict) := by
  induction fs generalizing i with
  | nil => simp [findFieldIdxAux] at hfind
  | cons g gs ih =>
    by_cases hn : g.name = n
    · simp only [findFieldIdxAux, if_pos hn, Option.some.injEq] at hfind
      subst hfind
      simp only [List.getElem?_cons_zero, Option.some.injEq] at hget
      subst hget
      constructor
      · intro hc; simp [registerFieldAux, hn, hc]
      · intro hc; simp [registerFieldAux, hn, hc]
    · simp only [findFieldIdxAux, if_neg hn, Option.map_eq_some'] at hfind
      obtain ⟨j, hj, hij⟩ := hfind
      subst hij
      rw [List.getElem?_cons_succ] at hget
      obtain ⟨h1, h2⟩ := ih j hj hget
      constructor
      · intro hc; simp [registerFieldAux, hn, h1 hc]
      · intro hc; simp [registerFieldAux, hn, h2 hc]

/-- Witness for C4 at the spec's scenario: with "pressure" registered as float32 [10],
an identical re-registration is a no-op with the same identifier, and registering
shape [5] fails with FieldShapeConflict. -/
theorem registerField_idempotent_or_conflict_witness :
    registerFieldAux [⟨"pressure", .Float32, [10]⟩] "pressure" .Float32 [10]
      = .ok (0, [⟨"pressure", .Float32, [10]⟩]) ∧
    registerFieldAux [⟨"pressure", .Float32, [10]⟩] "pressure" .Float32 [5]
      = .error .FieldShapeConflict :=
  ⟨(registerField_idempotent_or_conflict [⟨"pressure", .Float32, [10]⟩] "pressure"
      .Float32 [10] 0 ⟨"pressure", .Float32, [10]⟩ (by decide) (by decide)).1
      (by decide),
   (registerField_idempotent_or_conflict [⟨"pressure", .Float32, [10]⟩] "pressure"
      .Float32 [5] 0 ⟨"pressure", .Float32, [10]⟩ (by decide) (by decide)).2
      (by decide)⟩

/-- C6: registerSavepoint is idempotent for an exact match of name plus attributes
(same identifier, unchanged list), the returned identifier resolves to the registered
savepoint, a fresh savepoint is appended at the end (ordered by first insertion), and
registering the same name with a different attribute set yields a distinct
SavepointID: identity is the full name+attributes tuple, never the name alone. -/
theorem registerSavepoint_identity (ss : List Savepoint) (sp : Savepoint) :
    registerSavepointAux (registerSavepointAux ss sp).2 sp = registerSavepointAux ss sp ∧
    (registerSavepointAux ss sp).2[(registerSavepointAux ss sp).1]? = some sp ∧
    (sp ∉ ss → registerSavepointAux ss sp = (ss.length, ss ++ [sp])) ∧
    (∀ sp2 : Savepoint, sp2.name = sp.name → sp2 ≠ sp →
      (registerSavepointAux (registerSavepointAux ss sp).2 sp2).1 ≠
        (registerSavepointAux ss sp).1) := by
  refine ⟨registerSavepointAux_idem ss sp, registerSavepointAux_get ss sp,
    registerSavepointAux_fresh ss sp, ?_⟩
  intro sp2 _ hne heq
  have h1 := registerSavepointAux_get ss sp
  have h2 := registerSavepointAux_get (registerSavepointAux ss sp).2 sp2
  have hlt : (registerSavepointAux ss sp).1 < (registerSavepointAux ss sp).2.length :=
    (List.getElem?_eq_some_iff.mp h1).1
  have hpres :
      (registerSavepointAux (registerSavepointAux ss sp).2 sp2).2[
        (registerSavepointAux ss sp).1]? = some sp := by
    rw [registerSavepointAux_snd]
    by_cases hm : sp2 ∈ (registerSavepointAux ss sp).2
    · rw [if_pos hm]; exact h1
    · rw [if_neg hm, List.getElem?_append_left hlt]; exact h1
  rw [heq, hpres] at h2
  exact hne (Option.some.injEq _ _ ▸ h2.symm ▸ rfl)

/-- Witness for C6 at a concrete savepoint list: registering a savepoint into the
empty list, the identifier resolves, re-registration is idempotent, and a second
savepoint with the same name but different attributes gets a different identifier. -/
theorem registerSavepoint_identity_witness :
    registerSavepointAux (registerSavepointAux [] ⟨"s", [("step", "0")]⟩).2
        ⟨"s", [("step", "0")]⟩ = registerSavepointAux [] ⟨"s", [("step", "0")]⟩ ∧
    (registerSavepointAux [] ⟨"s", [("step", "0")]⟩).2[
        (registerSavepointAux [] ⟨"s", [("step", "0")]⟩).1]? = some ⟨"s", [("step", "0")]⟩ ∧
    (⟨"s", [("step", "0")]⟩ ∉ ([] : List Savepoint) →
      registerSavepointAux [] ⟨"s", [("step", "0")]⟩
        = (0, [⟨"s", [("step", "0")]⟩])) ∧
    (∀ sp2 : Savepoint, sp2.name = Savepoint.name ⟨"s", [("step", "0")]⟩ →
      sp2 ≠ ⟨"s", [("step", "0")]⟩ →
      (registerSavepointAux (registerSavepointAux [] ⟨"s", [("step", "0")]⟩).2 sp2).1 ≠
        (registerSavepointAux [] ⟨"s", [("step", "0")]⟩).1) :=
  registerSavepoint_identity [] ⟨"s", [("step", "0")]⟩

/-- C7: registering a format name that is already registered with a different
constructor fails with DuplicateFormat; re-registering it with an identical
constructor is a no-op that returns the registry unchanged. -/
theorem registry_register_spec (r : Registry) (n : String) (ctor c0 : Nat)
    (h : lookupFormatAux r.formats n = some c0) :
    (ctor = c0 → r.register n ctor = .ok r) ∧
    (ctor ≠ c0 → r.register n ctor = .error .DuplicateFormat) := by
  unfold Registry.register
  rw [h]
  constructor
  · intro he; simp [he]
  · intro he
    have hne : ¬ c0 = ctor := fun hh => he hh.symm
    simp [hne]

/-- Witness for C7 at a concrete registry: identical re-registration of "binary" is a
no-op, a different constructor under the same name fails with DuplicateFormat. -/
theorem registry_register_spec_witness :
    Registry.register ⟨[("binary", 7)]⟩ "binary" 7 = .ok ⟨[("binary", 7)]⟩ ∧
    Registry.register ⟨[("binary", 7)]⟩ "binary" 8 = .error .DuplicateFormat :=
  ⟨(registry_register_spec ⟨[("binary", 7)]⟩ "binary" 7 7 (by decide)).1 rfl,
   (registry_register_spec ⟨[("binary", 7)]⟩ "binary" 8 7 (by decide)).2 (by decide)⟩

/-- C8: for every format name with no exact, case-sensitive match in the registry,
create fails with UnknownFormat and constructs no archive. -/
theorem registry_create_unknown (r : Registry) (n : String)
    (h : ∀ p ∈ r.formats, p.1 ≠ n) :
    r.create n = .error .UnknownFormat := by
  unfold Registry.create
  rw [lookupFormatAux_eq_none r.formats n h]

/-- Witness for C8: lookup is case-sensitive — a registry holding only "Binary" fails
to create "binary" with UnknownFormat. -/
theorem registry_create_unknown_witness :
    Registry.create ⟨[("Binary", 1)]⟩ "binary" = .error .UnknownFormat :=
  registry_create_unknown ⟨[("Binary", 1)]⟩ "binary" (by decide)

/-- C9: listRegisteredFormats returns all registered format names in registration
order — registering a fresh name appends exactly that name at the end of the
sequence — and two calls with no intervening registration return the same sequence. -/
theorem listRegisteredFormats_spec (r : Registry) (n : String) (ctor : Nat)
    (hfresh : ∀ p ∈ r.formats, p.1 ≠ n) :
    (∃ r2, r.register n ctor = .ok r2 ∧
      r2.listRegisteredFormats = r.listRegisteredFormats ++ [n]) ∧
    r.listRegisteredFormats = r.listRegisteredFormats := by
  refine ⟨⟨⟨r.formats ++ [(n, ctor)]⟩, ?_, ?_⟩, rfl⟩
  · unfold Registry.register
    rw [lookupFormatAux_eq_none r.formats n hfresh]
  · simp [Registry.listRegisteredFormats]

/-- Witness for C9 at a concrete registry: registering "netcdf" after "binary" yields
the listing with "netcdf" appended, and the listing is stable. -/
theorem listRegisteredFormats_spec_witness :
    (∃ r2, Registry.register ⟨[("binary", 0)]⟩ "netcdf" 1 = .ok r2 ∧
      r2.listRegisteredFormats = Registry.listRegisteredFormats ⟨[("binary", 0)]⟩ ++ ["netcdf"]) ∧
    Registry.listRegisteredFormats ⟨[("binary", 0)]⟩
      = Registry.listRegisteredFormats ⟨[("binary", 0)]⟩ :=
  listRegisteredFormats_spec ⟨[("binary", 0)]⟩ "netcdf" 1 (by decide)

end Serialbox
